import Mathlib

/-!
Verification of the `running-average` crate (`src/lib.rs`).

The crate implements a sliding-window accumulator: a ring of `capacity`
buckets covering a window of `duration`, rotated forward as time advances,
with `insert` adding into the most recent bucket and `measurement` summing
all live buckets.

Embedding conventions:
* `std::time::Duration` is modelled as a natural number of nanoseconds
  (Rust's `Duration` is `(secs, nanos < 1e9)` ordered and divided exactly as
  the total nanosecond count is).
* The manual clock's `f64` instants (seconds) are modelled as exact rational
  numbers; every floating-point operation of the source is modelled as the
  corresponding exact rational operation (in particular the literal `1e-9`
  is modelled as the exact rational 1/10^9).
* Rust panics (`assert!`, `unwrap`, division of a `Duration` by zero) are
  modelled as `Option.none`.
* `VecDeque<V>` is modelled as a `List V` whose head is the deque's front.
-/

/-- Rust `std::time::Duration`, as a total number of nanoseconds. -/
abbrev Duration := Nat

/-- Nanoseconds per second (`NANOS_PER_SEC`). -/
def nanosPerSec : Nat := 1000000000

/-- Modulus of Rust's `u32`, used for the `as u32` cast of the window length. -/
def uint32Mod : Nat := 4294967296

/-- Capability pair of the `TimeInstant` trait: `duration_since` (fallible:
`none` models a panic) and `forward`. -/
structure TimeInstantOps (I : Type) where
  durationSince : I → I → Option Duration
  forward : I → Duration → I

/-- Source function `dts`: `duration.as_secs() as f64 + duration.subsec_nanos() as f64 * 1e-9`,
modelled exactly over the rationals. -/
def dts (duration : Duration) : ℚ :=
  ((duration / nanosPerSec : Nat) : ℚ)
    + ((duration % nanosPerSec : Nat) : ℚ) * ((1 : ℚ) / (nanosPerSec : ℚ))

/-- Source function `std`: asserts `seconds >= 0.0` (panic modelled as `none`),
then builds `Duration::new(seconds.floor() as u64, ((seconds - seconds.floor()) * 1e-9) as u32)`.
Note the source multiplies the fractional part by `1e-9` (not `1e9`), so the
nanosecond component always truncates to zero. The formula is kept as written. -/
def stdDur (seconds : ℚ) : Option Duration :=
  if 0 ≤ seconds then
    some ((⌊seconds⌋).toNat * nanosPerSec
      + (⌊(seconds - (⌊seconds⌋ : ℚ)) * ((1 : ℚ) / (nanosPerSec : ℚ))⌋).toNat)
  else none

/-- The `impl TimeInstant for f64` instance (manual clock instants, in seconds):
`duration_since` is `std(self - earlier)`, `forward` is `self += dts(duration)`. -/
def f64Instant : TimeInstantOps ℚ where
  durationSince now earlier := stdDur (now - earlier)
  forward t d := t + dts d

/-- The `Measurement<T>` result type: summed `value` over the window `duration`. -/
structure Measurement (V : Type) where
  value : V
  duration : Duration
deriving DecidableEq

/-- Source `Measurement::rate`/`to_rate` for an integer sample type
(`Into<f64>`): `self.value.into() / dts(duration)`. -/
def Measurement.rate (m : Measurement ℤ) : ℚ :=
  (m.value : ℚ) / dts m.duration

/-- The `RunningAverage<V, I>` state: ring of buckets (head = VecDeque front),
lazily initialised `front` instant, window `duration`. -/
structure RunningAverage (V : Type) (I : Type) where
  window : List V
  front : Option I
  duration : Duration
deriving DecidableEq

/-- Source `RunningAverage::with_capacity`: asserts `capacity > 0` (panic
modelled as `none`) and fills the ring with `capacity` default values. -/
def RunningAverage.with_capacity (V I : Type) [Inhabited V] (duration : Duration) (capacity : Nat) :
    Option (RunningAverage V I) :=
  if capacity = 0 then none
  else some ⟨List.replicate capacity default, none, duration⟩

/-- One rotation step of the loop body: `pop_back` then `push_front(V::default())`. -/
def rot (V : Type) [Inhabited V] (w : List V) : List V :=
  default :: w.dropLast

/-- Iterated rotation (used only to state loop facts). -/
def rotIter (V : Type) [Inhabited V] : Nat → List V → List V
  | 0, w => w
  | n + 1, w => rotIter V n (rot V w)

/-- The `while` loop of `RunningAverage::shift`, with `slots_to_go` as the
(structural) fuel. Each iteration checks the guard
`now.duration_since(front) >= slot_duration` first; with fuel `0` a true
guard takes the collapse branch (`front.forward(since_front); break`),
otherwise one rotation is performed and the fuel decreases. The two fuel
cases below spell out the one loop body of the source. The third result
component is a ghost counter of the number of pop/push rotations performed;
the Rust loop returns nothing. -/
def shiftLoop {V I : Type} [Inhabited V] (ti : TimeInstantOps I) (now : I)
    (slot_duration : Duration) :
    Nat → List V → I → Option (List V × I × Nat)
  | 0, window, front =>
    match ti.durationSince now front with
    | none => none
    | some elapsed =>
      if slot_duration ≤ elapsed then some (window, ti.forward front elapsed, 0)
      else some (window, front, 0)
  | n + 1, window, front =>
    match ti.durationSince now front with
    | none => none
    | some elapsed =>
      if slot_duration ≤ elapsed then
        (shiftLoop ti now slot_duration n (rot V window) (ti.forward front slot_duration)).map
          (fun res => (res.1, res.2.1, res.2.2 + 1))
      else some (window, front, 0)

/-- Source `RunningAverage::shift`: initialise `front` on first use
(`get_or_insert(now)`), compute `slot_duration = duration / window.len() as u32`
(division by zero panics, modelled as `none`), then run the rotation loop with
`slots_to_go = window.len()`. The second result component is the ghost
rotation count of the loop. -/
def RunningAverage.shift {V I : Type} [Inhabited V] (ti : TimeInstantOps I)
    (ra : RunningAverage V I) (now : I) : Option (RunningAverage V I × Nat) :=
  let front := ra.front.getD now
  let len32 := ra.window.length % uint32Mod
  if len32 = 0 then none
  else
    (shiftLoop ti now (ra.duration / len32) ra.window.length ra.window front).map
      (fun res => (⟨res.1, some res.2.1, ra.duration⟩, res.2.2))

/-- Source `RunningAverage::insert`: shift, then `*window.front_mut().unwrap() += val`
(`unwrap` on an empty ring panics, modelled as `none`). -/
def RunningAverage.insert {V I : Type} [Inhabited V] [Add V] (ti : TimeInstantOps I)
    (ra : RunningAverage V I) (now : I) (val : V) : Option (RunningAverage V I) :=
  (RunningAverage.shift ti ra now).bind fun res =>
    match res.1.window with
    | [] => none
    | x :: xs => some ⟨(x + val) :: xs, res.1.front, res.1.duration⟩

/-- Source `RunningAverage::measurement`: shift, then sum all buckets; the
mutated state is returned alongside the measurement (`&mut self` in Rust). -/
def RunningAverage.measurement {V I : Type} [Inhabited V] [Add V] [Zero V] (ti : TimeInstantOps I)
    (ra : RunningAverage V I) (now : I) :
    Option (Measurement V × RunningAverage V I) :=
  (RunningAverage.shift ti ra now).map fun res => (⟨res.1.window.sum, res.1.duration⟩, res.1)

/-- Source `ManualTimeSource`: a manually advanced clock holding `now` seconds. -/
structure ManualTimeSource where
  now : ℚ

/-- Source `ManualTimeSource::new`: starts at `0.0`. -/
def ManualTimeSource.new : ManualTimeSource := ⟨0⟩

/-- Source `ManualTimeSource::time_shift`: `self.now += seconds`. -/
def ManualTimeSource.time_shift (ts : ManualTimeSource) (seconds : ℚ) : ManualTimeSource :=
  ⟨ts.now + seconds⟩

/-- Source `RealTimeRunningAverage` specialised to the `ManualTimeSource`
time source (the real-clock source is an opaque external capability). -/
structure RealTimeRunningAverage (V : Type) where
  inner : RunningAverage V ℚ
  time_source : ManualTimeSource

/-- Source `RealTimeRunningAverage::with_time_source`: delegates to
`with_capacity` (whose `capacity > 0` assertion may panic). -/
def RealTimeRunningAverage.with_time_source (V : Type) [Inhabited V]
    (duration : Duration) (capacity : Nat) (ts : ManualTimeSource) :
    Option (RealTimeRunningAverage V) :=
  (RunningAverage.with_capacity V ℚ duration capacity).map fun inner => ⟨inner, ts⟩

/-- Source `RealTimeRunningAverage::insert`: reads `now` from the time source
and delegates to the core `insert`. -/
def RealTimeRunningAverage.insert {V : Type} [Inhabited V] [Add V]
    (tw : RealTimeRunningAverage V) (val : V) : Option (RealTimeRunningAverage V) :=
  (RunningAverage.insert f64Instant tw.inner tw.time_source.now val).map fun inner => ⟨inner, tw.time_source⟩

/-- Source `RealTimeRunningAverage::measurement`: reads `now` from the time
source and delegates to the core `measurement`. -/
def RealTimeRunningAverage.measurement {V : Type} [Inhabited V] [Add V] [Zero V]
    (tw : RealTimeRunningAverage V) : Option (Measurement V × RealTimeRunningAverage V) :=
  (RunningAverage.measurement f64Instant tw.inner tw.time_source.now).map fun res =>
    (res.1, ⟨res.2, tw.time_source⟩)

/-- Source `time_source().time_shift(s)` on the wrapper. -/
def RealTimeRunningAverage.time_shift {V : Type}
    (tw : RealTimeRunningAverage V) (seconds : ℚ) : RealTimeRunningAverage V :=
  ⟨tw.inner, tw.time_source.time_shift seconds⟩

/-- Test fixture `const_over_different_capacity`: window 4s, manual clock;
insert 10 at t = 0, 1, 2, 3 then measure at t = 3; returns (value, rate). -/
def constTrace (capacity : Nat) : Option (ℤ × ℚ) :=
  (RealTimeRunningAverage.with_time_source ℤ 4000000000 capacity ManualTimeSource.new).bind fun tw =>
  (tw.insert 10).bind fun tw =>
  ((tw.time_shift 1).insert 10).bind fun tw =>
  ((tw.time_shift 1).insert 10).bind fun tw =>
  ((tw.time_shift 1).insert 10).bind fun tw =>
  tw.measurement.map fun res => (res.1.value, res.1.rate)

/-- Test fixture `const_half_time_over_different_capacity`: window 4s; insert 10
at t = 0 and t = 1, advance to t = 3, measure; returns (value, rate). -/
def halfTrace (capacity : Nat) : Option (ℤ × ℚ) :=
  (RealTimeRunningAverage.with_time_source ℤ 4000000000 capacity ManualTimeSource.new).bind fun tw =>
  (tw.insert 10).bind fun tw =>
  ((tw.time_shift 1).insert 10).bind fun tw =>
  ((tw.time_shift 1).time_shift 1).measurement.map fun res => (res.1.value, res.1.rate)

/-- Test fixture `long_time_shift`: window 4s, capacity 16; insert 10 at t = 0,
jump 1e9 seconds, then insert 10 four times one second apart, measure. -/
def longTrace : Option (ℤ × ℚ) :=
  (RealTimeRunningAverage.with_time_source ℤ 4000000000 16 ManualTimeSource.new).bind fun tw =>
  (tw.insert 10).bind fun tw =>
  ((tw.time_shift 1000000000).insert 10).bind fun tw =>
  ((tw.time_shift 1).insert 10).bind fun tw =>
  ((tw.time_shift 1).insert 10).bind fun tw =>
  ((tw.time_shift 1).insert 10).bind fun tw =>
  tw.measurement.map fun res => (res.1.value, res.1.rate)

/-- The scenario exactly as claim C3 words it: insert 10 at t = 0, jump 1e9
seconds, then insert 10, 10, 10 one second apart (three inserts), measure. -/
def longTraceClaim : Option ℤ :=
  (RealTimeRunningAverage.with_time_source ℤ 4000000000 16 ManualTimeSource.new).bind fun tw =>
  (tw.insert 10).bind fun tw =>
  ((tw.time_shift 1000000000).insert 10).bind fun tw =>
  ((tw.time_shift 1).insert 10).bind fun tw =>
  ((tw.time_shift 1).insert 10).bind fun tw =>
  tw.measurement.map fun res => res.1.value

/-- Insert-only sequence refuting C1: window `Duration::new(2, 1)`-like span of
3000000002 ns, inserts of 10 at t = 0, 1, 2 (all within the final window),
measured at t = 3.000000001. -/
def c1CexTrace (capacity : Nat) : Option ℤ :=
  (RunningAverage.with_capacity ℤ ℚ 3000000002 capacity).bind fun ra =>
  (RunningAverage.insert f64Instant ra 0 10).bind fun ra =>
  (RunningAverage.insert f64Instant ra 1 10).bind fun ra =>
  (RunningAverage.insert f64Instant ra 2 10).bind fun ra =>
  (RunningAverage.measurement f64Instant ra (3000000001/1000000000)).map fun res => res.1.value

/-- State reached by inserting 10 at t = 0 and 10 at t = 1 (window 4 s,
capacity 16) on the manual clock; used to refute C2 as stated. -/
def c2CexState : Option (RunningAverage ℤ ℚ) :=
  (RunningAverage.with_capacity ℤ ℚ 4000000000 16).bind fun ra =>
  (RunningAverage.insert f64Instant ra 0 10).bind fun ra =>
  RunningAverage.insert f64Instant ra 1 10

/-! Support lemmas about the time arithmetic. -/

theorem nanosPerSec_q_pos : (0 : ℚ) < (nanosPerSec : ℚ) := by
  norm_num [nanosPerSec]

theorem dts_eq (d : Duration) : dts d = (d : ℚ) / (nanosPerSec : ℚ) := by
  have hgen : ∀ m : Nat, m / 1000000000 * 1000000000 + m % 1000000000 = m := by
    intro m
    omega
  have hN : d / nanosPerSec * nanosPerSec + d % nanosPerSec = d := hgen d
  have h : ((d / nanosPerSec : Nat) : ℚ) * (nanosPerSec : ℚ) + ((d % nanosPerSec : Nat) : ℚ)
      = (d : ℚ) := by
    exact_mod_cast congrArg (fun n : Nat => (n : ℚ)) hN
  have hnz : (nanosPerSec : ℚ) ≠ 0 := ne_of_gt nanosPerSec_q_pos
  field_simp [dts]
  linarith [h]

theorem dts_zero : dts 0 = 0 := by
  rw [dts_eq]; simp

theorem dts_mul_nanos (n : Nat) : dts (n * nanosPerSec) = (n : ℚ) := by
  have hnz : (nanosPerSec : ℚ) ≠ 0 := ne_of_gt nanosPerSec_q_pos
  rw [dts_eq]
  push_cast
  field_simp

theorem stdDur_of_nonneg {x : ℚ} (hx : 0 ≤ x) :
    stdDur x = some ((⌊x⌋).toNat * nanosPerSec) := by
  have h0 : (0 : ℚ) ≤ x - (⌊x⌋ : ℚ) := sub_nonneg.mpr (Int.floor_le x)
  have h1 : x - (⌊x⌋ : ℚ) < 1 := by
    have := Int.lt_floor_add_one x
    linarith
  have hsmall : (1 : ℚ) / (nanosPerSec : ℚ) ≤ 1 := by
    rw [div_le_one nanosPerSec_q_pos]
    norm_num [nanosPerSec]
  have hfr : ⌊(x - (⌊x⌋ : ℚ)) * ((1 : ℚ) / (nanosPerSec : ℚ))⌋ = 0 := by
    apply Int.floor_eq_zero_iff.mpr
    constructor
    · exact mul_nonneg h0 (div_nonneg zero_le_one (le_of_lt nanosPerSec_q_pos))
    · calc (x - (⌊x⌋ : ℚ)) * ((1 : ℚ) / (nanosPerSec : ℚ))
          ≤ (x - (⌊x⌋ : ℚ)) * 1 := by
            apply mul_le_mul_of_nonneg_left hsmall h0
        _ < 1 := by linarith
  unfold stdDur
  rw [if_pos hx, hfr]
  simp

theorem stdDur_of_neg {x : ℚ} (hx : x < 0) : stdDur x = none := by
  simp [stdDur, not_le.mpr hx]

theorem stdDur_some {x : ℚ} {el : Duration} (h : stdDur x = some el) :
    0 ≤ x ∧ el = (⌊x⌋).toNat * nanosPerSec := by
  by_cases hx : 0 ≤ x
  · rw [stdDur_of_nonneg hx] at h
    exact ⟨hx, (Option.some.injEq _ _ ▸ h).symm ▸ rfl⟩
  · rw [stdDur_of_neg (not_le.mp hx)] at h
    exact absurd h (by simp)

theorem floor_toNat_cast {x : ℚ} (hx : 0 ≤ x) : (((⌊x⌋).toNat : Nat) : ℚ) = (⌊x⌋ : ℚ) := by
  exact_mod_cast Int.toNat_of_nonneg (Int.floor_nonneg.mpr hx)

/-- When the loop guard holds, the slot duration (in seconds) is at most the
real elapsed time, so forwarding `front` by one slot keeps it at or before `now`. -/
theorem dts_le_of_guard {sd : Duration} {x : ℚ} (hx : 0 ≤ x)
    (hg : sd ≤ (⌊x⌋).toNat * nanosPerSec) : dts sd ≤ x := by
  rw [dts_eq, div_le_iff₀ nanosPerSec_q_pos]
  have h1 : ((sd : Nat) : ℚ) ≤ (((⌊x⌋).toNat * nanosPerSec : Nat) : ℚ) := by exact_mod_cast hg
  have h2 : (((⌊x⌋).toNat * nanosPerSec : Nat) : ℚ) = (⌊x⌋ : ℚ) * (nanosPerSec : ℚ) := by
    push_cast [floor_toNat_cast hx]
    ring
  have h3 : (⌊x⌋ : ℚ) ≤ x := Int.floor_le x
  nlinarith [nanosPerSec_q_pos]

/-- Forwarding by the measured elapsed duration lands on `now` rounded down to
the whole second: the remaining gap is the fractional part of `now - f`. -/
theorem forward_elapsed_fract (now f : ℚ) (hx : 0 ≤ now - f) :
    now - f64Instant.forward f ((⌊now - f⌋).toNat * nanosPerSec) = Int.fract (now - f) := by
  show now - (f + dts ((⌊now - f⌋).toNat * nanosPerSec)) = Int.fract (now - f)
  rw [dts_mul_nanos, floor_toNat_cast hx, Int.fract]
  ring

/-! Support lemmas about the ring rotation. -/

theorem rot_length {V : Type} [Inhabited V] (w : List V) (hw : w ≠ []) :
    (rot V w).length = w.length := by
  have hpos : 0 < w.length := List.length_pos.mpr hw
  simp [rot, List.length_dropLast]
  omega

theorem rot_ne_nil {V : Type} [Inhabited V] (w : List V) : rot V w ≠ [] := by
  simp [rot]

theorem rot_replicate {V : Type} [Inhabited V] (n : Nat) (hn : 1 ≤ n) :
    rot V (List.replicate n default) = List.replicate n default := by
  rw [rot, List.dropLast_replicate]
  cases n with
  | zero => omega
  | succ m => simp [List.replicate_succ]

theorem rotIter_formula {V : Type} [Inhabited V] :
    ∀ (k : Nat) (w : List V), w ≠ [] →
      rotIter V k w = List.replicate (min k w.length) default ++ w.take (w.length - k) := by
  intro k
  induction k with
  | zero => intro w hw; simp [rotIter]
  | succ m ih =>
    intro w hw
    rw [rotIter, ih (rot V w) (rot_ne_nil w), rot_length w hw]
    by_cases hlen : w.length ≤ m
    · have h1 : w.length - m = 0 := by omega
      have h2 : w.length - (m + 1) = 0 := by omega
      have h3 : min m w.length = w.length := by omega
      have h4 : min (m + 1) w.length = w.length := by omega
      simp [h1, h2, h3, h4]
    · have h1 : w.length - m = (w.length - (m + 1)) + 1 := by omega
      have h3 : min m w.length = m := by omega
      have h4 : min (m + 1) w.length = m + 1 := by omega
      rw [h1, h3, h4, rot]
      rw [List.take_succ_cons]
      have h5 : w.dropLast.take (w.length - (m + 1)) = w.take (w.length - (m + 1)) := by
        rw [List.dropLast_eq_take, List.take_take]
        congr 1
        omega
      rw [h5, List.replicate_succ' m, List.append_assoc, List.singleton_append]

theorem rotIter_full {V : Type} [Inhabited V] (w : List V) (hw : w ≠ []) :
    rotIter V w.length w = List.replicate w.length default := by
  rw [rotIter_formula w.length w hw]
  simp

/-! Behaviour of one run of the rotation loop. -/

/-- A failing `duration_since` (time went backwards) aborts the loop at once,
whatever the fuel. -/
theorem shiftLoop_none {V I : Type} [Inhabited V] (ti : TimeInstantOps I) (now : I)
    (sd : Duration) (fuel : Nat) (w : List V) (f : I)
    (hds : ti.durationSince now f = none) :
    shiftLoop ti now sd fuel w f = none := by
  cases fuel <;> simp [shiftLoop, hds]

/-- A false guard at entry exits the loop at once with nothing changed,
whatever the fuel. -/
theorem shiftLoop_guard_false {V I : Type} [Inhabited V] (ti : TimeInstantOps I) (now : I)
    (sd : Duration) (fuel : Nat) (w : List V) (f : I) (el : Duration)
    (hds : ti.durationSince now f = some el) (hg : ¬ sd ≤ el) :
    shiftLoop ti now sd fuel w f = some (w, f, 0) := by
  cases fuel <;> simp [shiftLoop, hds, hg]

/-- The ghost rotation count never exceeds the fuel, and the ring length is
preserved (a nonempty ring stays nonempty of the same length). -/
theorem shiftLoop_basic {V I : Type} [Inhabited V] (ti : TimeInstantOps I) (now : I)
    (sd : Duration) :
    ∀ (fuel : Nat) (w : List V) (f : I) (res : List V × I × Nat),
      shiftLoop ti now sd fuel w f = some res →
      res.2.2 ≤ fuel ∧ (w ≠ [] → res.1.length = w.length ∧ res.1 ≠ []) := by
  intro fuel
  induction fuel with
  | zero =>
    intro w f res h
    simp only [shiftLoop] at h
    split at h
    · exact absurd h (by simp)
    · split at h
      · cases h
        exact ⟨Nat.le_refl 0, fun hw => ⟨rfl, hw⟩⟩
      · cases h
        exact ⟨Nat.le_refl 0, fun hw => ⟨rfl, hw⟩⟩
  | succ n ih =>
    intro w f res h
    simp only [shiftLoop] at h
    split at h
    · exact absurd h (by simp)
    · split at h
      · rw [Option.map_eq_some'] at h
        obtain ⟨res0, hres0, hmap⟩ := h
        obtain ⟨hcount, hlen⟩ := ih (rot V w) (ti.forward f sd) res0 hres0
        subst hmap
        refine ⟨Nat.succ_le_succ hcount, fun hw => ?_⟩
        obtain ⟨h1, h2⟩ := hlen (rot_ne_nil w)
        rw [rot_length w hw] at h1
        exact ⟨h1, h2⟩
      · cases h
        exact ⟨Nat.zero_le _, fun hw => ⟨rfl, hw⟩⟩

/-- The final ring is exactly the initial ring rotated once per counted
rotation: nothing but the pop_back/push_front pairs ever touches the ring. -/
theorem shiftLoop_window {V I : Type} [Inhabited V] (ti : TimeInstantOps I) (now : I)
    (sd : Duration) :
    ∀ (fuel : Nat) (w : List V) (f : I) (w' : List V) (f' : I) (r : Nat),
      shiftLoop ti now sd fuel w f = some (w', f', r) → w' = rotIter V r w := by
  intro fuel
  induction fuel with
  | zero =>
    intro w f w' f' r h
    simp only [shiftLoop] at h
    split at h
    · exact absurd h (by simp)
    · split at h
      · cases h
        rfl
      · cases h
        rfl
  | succ n ih =>
    intro w f w' f' r h
    simp only [shiftLoop] at h
    split at h
    · exact absurd h (by simp)
    · split at h
      · rw [Option.map_eq_some'] at h
        obtain ⟨⟨w0, f0, r0⟩, hres0, hmap⟩ := h
        cases hmap
        simpa [rotIter] using ih (rot V w) (ti.forward f sd) w0 f0 r0 hres0
      · cases h
        rfl

/-- How the loop can exit, on the manual (rational-seconds) clock: the final
front is at or before `now`, and either the guard is false at the final front,
or the collapse ran, in which case the measured remaining elapsed time is zero,
the fuel was entirely consumed by rotations, and the ring was rotated `fuel`
times. -/
theorem shiftLoop_exit {V : Type} [Inhabited V] (now : ℚ) (sd : Duration) :
    ∀ (fuel : Nat) (w : List V) (f : ℚ) (w' : List V) (f' : ℚ) (r : Nat),
      shiftLoop f64Instant now sd fuel w f = some (w', f', r) →
      f' ≤ now ∧
        ((∃ d', stdDur (now - f') = some d' ∧ ¬ sd ≤ d') ∨
          (stdDur (now - f') = some 0 ∧ r = fuel ∧ w' = rotIter V fuel w)) := by
  intro fuel
  induction fuel with
  | zero =>
    intro w f w' f' r h
    simp only [shiftLoop] at h
    split at h
    · exact absurd h (by simp)
    · rename_i el hds
      have hds' : stdDur (now - f) = some el := hds
      obtain ⟨hx, hel⟩ := stdDur_some hds'
      subst hel
      split at h
      · rename_i hg
        cases h
        have hfr := forward_elapsed_fract now f hx
        constructor
        · have h0 : 0 ≤ Int.fract (now - f) := Int.fract_nonneg _
          linarith [hfr]
        · refine Or.inr ⟨?_, rfl, rfl⟩
          rw [hfr, stdDur_of_nonneg (Int.fract_nonneg _), Int.floor_fract]
          simp
      · rename_i hg
        cases h
        refine ⟨by linarith [sub_nonneg.mp hx], Or.inl ⟨_, hds', hg⟩⟩
  | succ n ih =>
    intro w f w' f' r h
    simp only [shiftLoop] at h
    split at h
    · exact absurd h (by simp)
    · rename_i el hds
      have hds' : stdDur (now - f) = some el := hds
      obtain ⟨hx, hel⟩ := stdDur_some hds'
      subst hel
      split at h
      · rename_i hg
        rw [Option.map_eq_some'] at h
        obtain ⟨⟨w0, f0, r0⟩, hres0, hmap⟩ := h
        obtain ⟨hf0, hdisj⟩ := ih (rot V w) (f64Instant.forward f sd) w0 f0 r0 hres0
        cases hmap
        refine ⟨hf0, ?_⟩
        rcases hdisj with hcase | ⟨h0, hr, hw⟩
        · exact Or.inl hcase
        · exact Or.inr ⟨h0, by simp [hr], by rw [hw, rotIter]⟩
      · rename_i hg
        cases h
        refine ⟨by linarith [sub_nonneg.mp hx], Or.inl ⟨_, hds', hg⟩⟩

/-- With a zero slot duration the guard never turns false, but a ring already
all-default and a front whose measured distance to `now` is zero are a fixed
point of the loop, whatever the fuel. -/
theorem shiftLoop_zero_slot {V : Type} [Inhabited V] (now f : ℚ)
    (h0 : stdDur (now - f) = some 0) (n : Nat) (hn : 1 ≤ n) :
    ∀ fuel, shiftLoop f64Instant now 0 fuel (List.replicate n (default : V)) f
      = some (List.replicate n default, f, fuel) := by
  have hfwd : f64Instant.forward f 0 = f := by
    show f + dts 0 = f
    rw [dts_zero, add_zero]
  have hds : f64Instant.durationSince now f = some 0 := h0
  intro fuel
  induction fuel with
  | zero => simp [shiftLoop, hds, hfwd]
  | succ k ih => simp [shiftLoop, hds, rot_replicate n hn, hfwd, ih]

/-- Combined specification of `RunningAverage::shift` on the manual clock:
success implies a nonempty ring whose length, and the window duration, are
preserved; the ghost rotation count is bounded by the capacity; the final
front is a defined instant at or before `now` at which either the rotation
guard is false or (collapse) the measured remaining elapsed time is zero, the
count equals the capacity and every cell has been reset to the default value;
and whenever the count reached the capacity (a full sweep, which any time jump
longer than the whole window forces) every cell has been reset. -/
theorem shift_spec {V : Type} [Inhabited V] (ra : RunningAverage V ℚ) (now : ℚ)
    (ra' : RunningAverage V ℚ) (r : Nat)
    (h : RunningAverage.shift f64Instant ra now = some (ra', r)) :
    ra.window ≠ [] ∧ ra.window.length % uint32Mod ≠ 0 ∧
    ra'.window.length = ra.window.length ∧
    ra'.duration = ra.duration ∧ r ≤ ra.window.length ∧
    ∃ f', ra'.front = some f' ∧ f' ≤ now ∧
      (((∃ d', stdDur (now - f') = some d' ∧
          ¬ ra.duration / (ra.window.length % uint32Mod) ≤ d') ∨
        (stdDur (now - f') = some 0 ∧ r = ra.window.length ∧
          ra'.window = List.replicate ra.window.length default)) ∧
      (r = ra.window.length →
        ra'.window = List.replicate ra.window.length default)) := by
  simp only [RunningAverage.shift] at h
  split at h
  · exact absurd h (by simp)
  · rename_i hlen32
    have hw : ra.window ≠ [] := by
      intro hnil
      apply hlen32
      rw [hnil]
      rfl
    rw [Option.map_eq_some'] at h
    obtain ⟨⟨w0, f0, r0⟩, hres0, hmap⟩ := h
    cases hmap
    obtain ⟨hcount, hlen⟩ :=
      shiftLoop_basic f64Instant now _ ra.window.length ra.window _ _ hres0
    obtain ⟨hlen1, _⟩ := hlen hw
    obtain ⟨hf0, hdisj⟩ :=
      shiftLoop_exit now _ ra.window.length ra.window _ w0 f0 r0 hres0
    have hwin := shiftLoop_window f64Instant now _ ra.window.length ra.window _ w0 f0 r0 hres0
    have hsweep : r0 = ra.window.length → w0 = List.replicate ra.window.length default := by
      intro hr
      rw [hwin, hr, rotIter_full ra.window hw]
    refine ⟨hw, hlen32, hlen1, rfl, hcount, f0, rfl, hf0, ?_, hsweep⟩
    rcases hdisj with hcase | ⟨h0, hr, hw0⟩
    · exact Or.inl hcase
    · exact Or.inr ⟨h0, hr, by rw [hw0, rotIter_full ra.window hw]⟩

/-- A successful `shift` is idempotent on the state: repeating it with the same
`now` succeeds and does not change the state again (only the ghost rotation
count may differ). -/
theorem shift_idem {V : Type} [Inhabited V] (ra : RunningAverage V ℚ) (now : ℚ)
    (ra' : RunningAverage V ℚ) (r : Nat)
    (h : RunningAverage.shift f64Instant ra now = some (ra', r)) :
    ∃ r₂, RunningAverage.shift f64Instant ra' now = some (ra', r₂) := by
  obtain ⟨hw, hmod, hlen, hdur, hcount, f', hfront, hf', hdisj, hsweep⟩ :=
    shift_spec ra now ra' r h
  have hmod' : ¬ ra'.window.length % uint32Mod = 0 := by
    rw [hlen]
    exact hmod
  have hsd' : ra'.duration / (ra'.window.length % uint32Mod)
      = ra.duration / (ra.window.length % uint32Mod) := by
    rw [hdur, hlen]
  have heta : ∀ g : ℚ, ra'.front = some g →
      (⟨ra'.window, some g, ra'.duration⟩ : RunningAverage V ℚ) = ra' := by
    intro g hg
    rw [← hg]
  rcases hdisj with ⟨d', hd', hg⟩ | ⟨h0, hr, hrep⟩
  · refine ⟨0, ?_⟩
    simp only [RunningAverage.shift, hfront, Option.getD_some]
    rw [if_neg hmod', hsd',
      shiftLoop_guard_false f64Instant now _ ra'.window.length ra'.window f' d' hd' hg]
    simp [heta f' hfront]
  · by_cases hz : ra.duration / (ra.window.length % uint32Mod) = 0
    · refine ⟨ra'.window.length, ?_⟩
      have hlen1 : 1 ≤ ra.window.length :=
        Nat.pos_of_ne_zero (fun h0' => hw (List.length_eq_zero.mp h0'))
      simp only [RunningAverage.shift, hfront, Option.getD_some]
      rw [if_neg hmod', hsd', hz]
      rw [hlen]
      rw [hrep, shiftLoop_zero_slot now f' h0 ra.window.length hlen1 ra.window.length]
      simp only [Option.map_some']
      rw [← hrep, heta f' hfront, ← hlen]
    · refine ⟨0, ?_⟩
      simp only [RunningAverage.shift, hfront, Option.getD_some]
      rw [if_neg hmod', hsd',
        shiftLoop_guard_false f64Instant now _ ra'.window.length ra'.window f' 0 h0
          (fun hle => hz (Nat.le_zero.mp hle))]
      simp [heta f' hfront]

/-! The claims. -/

/-- C1, counterexample: an insert-only sequence on a fresh accumulator whose
insert timestamps 0, 1, 2 all lie strictly within the final window span (the
window is 3000000002 ns ≈ 3.000000002 s of wall time, the measurement is taken
at t = 3.000000001, so the span starts at about -0.000000001), yet the
measured value at capacity 3 is 20, not the inserted sum 30, and the measured
value at capacity 1 is 30 — so the measurement neither equals the in-window
sum nor is capacity-invariant. -/
theorem c1_counterexample :
    c1CexTrace 3 = some 20 ∧
    c1CexTrace 1 = some 30 ∧
    (3000000001 / 1000000000 : ℚ) - dts 3000000002 < 0 ∧
    (2 : ℚ) ≤ 3000000001 / 1000000000 ∧
    ¬ (20 : ℤ) = 10 + 10 + 10 := by
  decide!

/-- C1, amended: for the fixed test sequence (insert 10 at t = 0, 1, 2, 3,
measure at t = 3, window 4 s), the measurement is exactly the inserted sum 40
(rate 10), identically for every capacity from 1 to 30. -/
theorem c1_amended_sweep : ∀ c ∈ Finset.Icc 1 30, constTrace c = some (40, 10) := by
  decide!

/-- C1, witness for the amended theorem at capacity 16. -/
theorem c1_amended_witness : constTrace 16 = some (40, 10) :=
  c1_amended_sweep 16 (by decide)

/-- C2, counterexample: after inserting 10 at t = 0 and 10 at t = 1 with a 4 s
window and capacity 16, the stored front is 1/4 while `now` is 1: the real gap
3/4 s exceeds the slot duration 1/4 s, although the elapsed second did not
exceed the whole 4 s window (so the long-jump escape clause does not apply)
and the front was not advanced to `now`. -/
theorem c2_counterexample :
    (c2CexState.map fun ra => ra.front) = some (some ((1 : ℚ) / 4)) ∧
    dts (4000000000 / (16 % uint32Mod)) = 1 / 4 ∧
    ¬ ((1 : ℚ) - 1 / 4 ≤ 1 / 4) ∧
    ((1 : ℚ) - 0 ≤ dts 4000000000) ∧
    ¬ ((1 : ℚ) / 4 = 1) := by
  decide!

/-- C2, amended: after every successful insert or measurement call with time
`now` (and a slot duration of at least one nanosecond), the stored front `f`
satisfies `now.duration_since(f) < slot_duration` in the clock's own elapsed
measure — the loop never exits with the rotation guard still true; whenever
the rotation phase (`shift`, which both calls run) rotated through all
`capacity` slots — as any time jump longer than the whole window forces — every
cell has been zeroed by the rotations; and in the collapse case specifically
the measured remaining elapsed time is zero, the rotation count equals the
capacity, and all cells are zeroed. (As stated, with "within one
slot-duration" read as real time difference and "front advanced directly to
now", the claim fails: see the counterexample. For the f64 clock the elapsed
measure truncates to whole seconds, so the real gap can be larger.) -/
theorem c2_amended (ra : RunningAverage ℤ ℚ) (now : ℚ) (v : ℤ)
    (hsd : 1 ≤ ra.duration / (ra.window.length % uint32Mod)) :
    (∀ ra₀ r, RunningAverage.shift f64Instant ra now = some (ra₀, r) →
      ∃ f', ra₀.front = some f' ∧
        (∃ d', f64Instant.durationSince now f' = some d' ∧
          d' < ra.duration / (ra.window.length % uint32Mod)) ∧
        (r = ra.window.length →
          ra₀.window = List.replicate ra.window.length (default : ℤ)) ∧
        ((∃ d', f64Instant.durationSince now f' = some d' ∧
            ¬ ra.duration / (ra.window.length % uint32Mod) ≤ d') ∨
          (f64Instant.durationSince now f' = some 0 ∧ r = ra.window.length ∧
            ra₀.window = List.replicate ra.window.length (default : ℤ)))) ∧
    (∀ ra', RunningAverage.insert f64Instant ra now v = some ra' →
      ∃ f' d', ra'.front = some f' ∧ f64Instant.durationSince now f' = some d' ∧
        d' < ra.duration / (ra.window.length % uint32Mod)) ∧
    (∀ m ra', RunningAverage.measurement f64Instant ra now = some (m, ra') →
      ∃ f' d', ra'.front = some f' ∧ f64Instant.durationSince now f' = some d' ∧
        d' < ra.duration / (ra.window.length % uint32Mod)) := by
  refine ⟨?_, ?_, ?_⟩
  · intro ra₀ r h
    obtain ⟨hw, hmod, hlen, hdur, hcount, f', hfront, hf', hdisj, hsweep⟩ :=
      shift_spec ra now ra₀ r h
    refine ⟨f', hfront, ?_, hsweep, hdisj⟩
    rcases hdisj with ⟨d', hd', hg⟩ | ⟨h0, _, _⟩
    · exact ⟨d', hd', Nat.not_le.mp hg⟩
    · exact ⟨0, h0, hsd⟩
  · intro ra' h
    simp only [RunningAverage.insert, Option.bind_eq_some] at h
    obtain ⟨⟨ra0, r0⟩, hsh, hmk⟩ := h
    obtain ⟨hw, hmod, hlen, hdur, hcount, f', hfront, hf', hdisj, hsweep⟩ :=
      shift_spec ra now ra0 r0 hsh
    have hfr' : ra'.front = some f' := by
      cases hwin : ra0.window with
      | nil => rw [hwin] at hmk; exact absurd hmk (by simp)
      | cons x xs =>
        rw [hwin] at hmk
        cases hmk
        exact hfront
    rcases hdisj with ⟨d', hd', hg⟩ | ⟨h0, _, _⟩
    · exact ⟨f', d', hfr', hd', Nat.not_le.mp hg⟩
    · exact ⟨f', 0, hfr', h0, hsd⟩
  · intro m ra' h
    simp only [RunningAverage.measurement, Option.map_eq_some'] at h
    obtain ⟨⟨ra0, r0⟩, hsh, hmk⟩ := h
    have hra : ra0 = ra' := congrArg Prod.snd hmk
    subst hra
    obtain ⟨hw, hmod, hlen, hdur, hcount, f', hfront, hf', hdisj, hsweep⟩ :=
      shift_spec ra now ra0 r0 hsh
    rcases hdisj with ⟨d', hd', hg⟩ | ⟨h0, _, _⟩
    · exact ⟨f', d', hfront, hd', Nat.not_le.mp hg⟩
    · exact ⟨f', 0, hfront, h0, hsd⟩

/-- C2, witness for the amended theorem: fresh accumulator (window 4 s,
capacity 16), insert 10 at t = 0. -/
theorem c2_amended_witness :
    ∃ f' d',
      (⟨10 :: List.replicate 15 (0 : ℤ), some 0, 4000000000⟩ : RunningAverage ℤ ℚ).front
          = some f' ∧
      f64Instant.durationSince 0 f' = some d' ∧
      d' < (4000000000 : Duration) / (16 % uint32Mod) :=
  (c2_amended ⟨List.replicate 16 0, none, 4000000000⟩ 0 10 (by decide!)).2.1
    ⟨10 :: List.replicate 15 0, some 0, 4000000000⟩ (by decide!)

/-- C3, counterexample: the scenario exactly as the claim words it — insert 10
at t = 0, jump 1e9 seconds, insert 10 three times one second apart, measure —
yields 30, not the claimed 40 (the t = 0 insert has long expired and only the
three post-gap inserts count; the code's own test performs four post-gap
inserts). -/
theorem c3_counterexample : longTraceClaim = some 30 ∧ ¬ (30 : ℤ) = 40 := by
  decide!

/-- C3, amended: as in the code's `long_time_shift` test — insert 10 at t = 0,
jump 1,000,000,000 seconds, then insert 10 four times one second apart
(window 4 s, capacity 16) — the measurement is 40 with rate 10: the enormous
gap is collapsed (the pre-gap insert is dropped) and the call terminates
within the fuel-bounded rotation loop. -/
theorem c3_amended : longTrace = some (40, 10) := by
  decide!

/-- C4: inserting 10 at t = 0 and 10 at t = 1 into a 4-second window and
reading at t = 3 with no further insert yields value 20 and rate 5, for every
capacity from 1 to 30. -/
theorem c4_partial_expiry : ∀ c ∈ Finset.Icc 1 30, halfTrace c = some (20, 5) := by
  decide!

/-- C4, witness at capacity 16. -/
theorem c4_witness : halfTrace 16 = some (20, 5) :=
  c4_partial_expiry 16 (by decide)

/-- C5: for every accumulator state and every `now` not earlier than the
stored front, a successful `shift` (the rotation loop that both `insert` and
`measurement` run) performs at most `capacity` slot rotations; the embedding
itself is a total function, so the operation always terminates. -/
theorem c5_rotation_bound (ra : RunningAverage ℤ ℚ) (now : ℚ)
    (_hmono : ∀ f, ra.front = some f → f ≤ now)
    (ra' : RunningAverage ℤ ℚ) (r : Nat)
    (h : RunningAverage.shift f64Instant ra now = some (ra', r)) :
    r ≤ ra.window.length :=
  (shift_spec ra now ra' r h).2.2.2.2.1

/-- C5, witness: a fresh 16-bucket accumulator read at t = 5 rotates 0 ≤ 16
times. -/
theorem c5_witness : (0 : Nat) ≤ (List.replicate 16 (0 : ℤ)).length :=
  c5_rotation_bound ⟨List.replicate 16 0, none, 4000000000⟩ 5
    (fun f hf => absurd hf (by simp))
    ⟨List.replicate 16 0, some 5, 4000000000⟩ 0 (by decide!)

/-- C6: calling insert or measurement with a `now` strictly earlier than the
stored front makes the elapsed-duration computation negative, which trips the
`assert!` in `std` — both operations panic (`none`); there is no retry or
recovery path. -/
theorem c6_backwards_panics (ra : RunningAverage ℤ ℚ) (f now : ℚ) (v : ℤ)
    (hf : ra.front = some f) (hlt : now < f) :
    RunningAverage.insert f64Instant ra now v = none ∧
    RunningAverage.measurement f64Instant ra now = none := by
  have hds : f64Instant.durationSince now f = none := stdDur_of_neg (by linarith)
  have hsh : RunningAverage.shift f64Instant ra now = none := by
    simp only [RunningAverage.shift, hf, Option.getD_some]
    split
    · rfl
    · rw [shiftLoop_none f64Instant now _ _ _ _ hds]
      rfl
  simp [RunningAverage.insert, RunningAverage.measurement, hsh]

/-- C6, witness: front at t = 5, calls at t = 3. -/
theorem c6_witness :
    RunningAverage.insert f64Instant
        (⟨List.replicate 16 (0 : ℤ), some 5, 4000000000⟩ : RunningAverage ℤ ℚ) 3 10 = none ∧
    RunningAverage.measurement f64Instant
        (⟨List.replicate 16 (0 : ℤ), some 5, 4000000000⟩ : RunningAverage ℤ ℚ) 3 = none :=
  c6_backwards_panics ⟨List.replicate 16 0, some 5, 4000000000⟩ 5 3 10 rfl (by norm_num)

/-- C7: construction with capacity 0 trips the `assert!` (panic, modelled as
`none`), while any capacity of at least 1 constructs successfully. -/
theorem c7_capacity_validation (d : Duration) :
    RunningAverage.with_capacity ℤ ℚ d 0 = none ∧
    ∀ c : Nat, 1 ≤ c → (RunningAverage.with_capacity ℤ ℚ d c).isSome = true := by
  constructor
  · simp [RunningAverage.with_capacity]
  · intro c hc
    simp [RunningAverage.with_capacity, Nat.pos_iff_ne_zero.mp hc]

/-- C7, witness at duration 4 s, capacities 0 and 16. -/
theorem c7_witness :
    RunningAverage.with_capacity ℤ ℚ 4000000000 0 = none ∧
    (RunningAverage.with_capacity ℤ ℚ 4000000000 16).isSome = true :=
  ⟨(c7_capacity_validation 4000000000).1, (c7_capacity_validation 4000000000).2 16 (by decide)⟩

/-- C8, failing input for the claimed advance/elapsed round trip: advancing
the f64 manual instant 0 by half a second (500000000 ns, exactly representable)
gives the instant 1/2, but the elapsed computation reports a zero duration
rather than 500000000 ns — `std` multiplies the sub-second remainder by
`1e-9` instead of `1e9`, so all sub-second precision is lost. -/
theorem c8_roundtrip_drops_subseconds :
    f64Instant.forward 0 500000000 = 1 / 2 ∧
    f64Instant.durationSince (f64Instant.forward 0 500000000) 0 = some 0 ∧
    ¬ (some (0 : Duration) = some (500000000 : Duration)) := by
  decide!

/-- C9: reading is idempotent — if a measurement at `now` succeeds, an
immediately repeated measurement at the same `now` succeeds, returns the same
measurement, and leaves the state unchanged. -/
theorem c9_measurement_idempotent {V : Type} [Inhabited V] [Add V] [Zero V]
    (ra : RunningAverage V ℚ) (now : ℚ) (m : Measurement V) (ra₁ : RunningAverage V ℚ)
    (h : RunningAverage.measurement f64Instant ra now = some (m, ra₁)) :
    RunningAverage.measurement f64Instant ra₁ now = some (m, ra₁) := by
  simp only [RunningAverage.measurement, Option.map_eq_some'] at h
  obtain ⟨⟨ra0, r0⟩, hsh, hmk⟩ := h
  have hm : (⟨ra0.window.sum, ra0.duration⟩ : Measurement V) = m := congrArg Prod.fst hmk
  have hra : ra0 = ra₁ := congrArg Prod.snd hmk
  subst hra
  obtain ⟨r₂, hsh₂⟩ := shift_idem ra now ra0 r0 hsh
  simp only [RunningAverage.measurement, hsh₂, Option.map_some']
  rw [hm]

/-- C9, witness: fresh 16-bucket accumulator measured at t = 0. -/
theorem c9_witness :
    RunningAverage.measurement f64Instant
        (⟨List.replicate 16 (0 : ℤ), some 0, 4000000000⟩ : RunningAverage ℤ ℚ) 0
      = some (⟨0, 4000000000⟩, ⟨List.replicate 16 0, some 0, 4000000000⟩) :=
  c9_measurement_idempotent ⟨List.replicate 16 0, none, 4000000000⟩ 0
    ⟨0, 4000000000⟩ ⟨List.replicate 16 0, some 0, 4000000000⟩ (by decide!)

/-- C10: the ring holds exactly `capacity` cells after construction, and every
successful insert or measurement call preserves the ring length (each rotation
pairs one pop_back with one push_front), so the measurement sum always ranges
over exactly `capacity` cells. -/
theorem c10_ring_length (d : Duration) (c : Nat) :
    (∀ ra : RunningAverage ℤ ℚ, RunningAverage.with_capacity ℤ ℚ d c = some ra →
      ra.window.length = c) ∧
    (∀ (ra : RunningAverage ℤ ℚ) (now : ℚ) (v : ℤ) ra',
      RunningAverage.insert f64Instant ra now v = some ra' →
      ra'.window.length = ra.window.length) ∧
    (∀ (ra : RunningAverage ℤ ℚ) (now : ℚ) (m : Measurement ℤ) ra',
      RunningAverage.measurement f64Instant ra now = some (m, ra') →
      ra'.window.length = ra.window.length) := by
  refine ⟨?_, ?_, ?_⟩
  · intro ra h
    simp only [RunningAverage.with_capacity] at h
    split at h
    · exact absurd h (by simp)
    · cases h
      simp
  · intro ra now v ra' h
    simp only [RunningAverage.insert, Option.bind_eq_some] at h
    obtain ⟨⟨ra0, r0⟩, hsh, hmk⟩ := h
    obtain ⟨hw, hmod, hlen, _⟩ := shift_spec ra now ra0 r0 hsh
    cases hwin : ra0.window with
    | nil => rw [hwin] at hmk; exact absurd hmk (by simp)
    | cons x xs =>
      rw [hwin] at hmk
      cases hmk
      rw [← hlen, hwin]
      rfl
  · intro ra now m ra' h
    simp only [RunningAverage.measurement, Option.map_eq_some'] at h
    obtain ⟨⟨ra0, r0⟩, hsh, hmk⟩ := h
    have hra : ra0 = ra' := congrArg Prod.snd hmk
    subst hra
    exact (shift_spec ra now ra0 r0 hsh).2.2.1

/-- C10, witness: construction at capacity 16, one insert at t = 0 and one
measurement at t = 0 on the resulting state. -/
theorem c10_witness :
    ((⟨List.replicate 16 (0 : ℤ), none, 4000000000⟩ : RunningAverage ℤ ℚ).window.length = 16) ∧
    ((⟨10 :: List.replicate 15 (0 : ℤ), some 0, 4000000000⟩ : RunningAverage ℤ ℚ).window.length
      = (⟨List.replicate 16 (0 : ℤ), none, 4000000000⟩ : RunningAverage ℤ ℚ).window.length) :=
  ⟨(c10_ring_length 4000000000 16).1 ⟨List.replicate 16 0, none, 4000000000⟩ (by decide!),
    (c10_ring_length 4000000000 16).2.1 ⟨List.replicate 16 0, none, 4000000000⟩ 0 10
      ⟨10 :: List.replicate 15 0, some 0, 4000000000⟩ (by decide!)⟩
